import Mathlib

/-!
Verification of the memory / context-assembly layer of a chat-assistant bot.

The Python sources (`memory.py`, `group_context.py`, `bot.py`) are shallowly
embedded below: messages are `List Char` (Python strings indexed by code
point), timestamps are `Nat` (each call site receives the clock value as an
explicit argument), the sqlite tables are association lists, and fallible
paths return `Except`.  Lower/upper casing is modelled for the alphabets the
program actually manipulates (ASCII and Russian Cyrillic), matching Python's
`str.lower` / `str.capitalize` on those characters.
-/

/-- Convert a string literal to the `List Char` representation used throughout. -/
def cl (s : String) : List Char := s.toList

/-- Python `str` whitespace test (the characters relevant to this program). -/
def isWs (c : Char) : Bool := c.isWhitespace

/-- Membership in the strip set `".,!?"` used by `words[i+1].strip(".,!?")`. -/
def isPunct (c : Char) : Bool := c = '.' || c = ',' || c = '!' || c = '?'

/-- Python `str.lower` on one character, for ASCII and Russian Cyrillic. -/
def pyCharLower (c : Char) : Char :=
  if 'A' ≤ c ∧ c ≤ 'Z' then Char.ofNat (c.toNat + 32)
  else if c = 'Ё' then 'ё'
  else if 'А' ≤ c ∧ c ≤ 'Я' then Char.ofNat (c.toNat + 32)
  else c

/-- Python `str.upper` on one character, for ASCII and Russian Cyrillic. -/
def pyCharUpper (c : Char) : Char :=
  if 'a' ≤ c ∧ c ≤ 'z' then Char.ofNat (c.toNat - 32)
  else if c = 'ё' then 'Ё'
  else if 'а' ≤ c ∧ c ≤ 'я' then Char.ofNat (c.toNat - 32)
  else c

/-- Python `message.lower()`. -/
def pyLower (l : List Char) : List Char := l.map pyCharLower

/-- Python `str.capitalize()`: first character upper-cased, the rest lower-cased. -/
def pyCapitalize : List Char → List Char
  | [] => []
  | c :: rest => pyCharUpper c :: rest.map pyCharLower

/-- Python `str.strip()` restricted to the right end (helper for `trimBy`). -/
def trimEndBy (p : Char → Bool) (l : List Char) : List Char :=
  (l.reverse.dropWhile p).reverse

/-- Python `str.strip(...)`: drop characters satisfying `p` from both ends. -/
def trimBy (p : Char → Bool) (l : List Char) : List Char :=
  trimEndBy p (l.dropWhile p)

/-- Python `str.strip()` (whitespace). -/
def trimWs (l : List Char) : List Char := trimBy isWs l

/-- Python `str.strip(".,!?")`. -/
def trimPunct (l : List Char) : List Char := trimBy isPunct l

/-- Accumulator loop behind `wsSplit` (structural recursion so it evaluates). -/
def wsSplitAux : List Char → List Char → List (List Char)
  | [], acc => if acc = [] then [] else [acc.reverse]
  | c :: rest, acc =>
      if isWs c then
        (if acc = [] then wsSplitAux rest [] else acc.reverse :: wsSplitAux rest [])
      else wsSplitAux rest (c :: acc)

/-- Python `str.split()` with no argument: maximal non-whitespace runs. -/
def wsSplit (l : List Char) : List (List Char) := wsSplitAux l []

/-- Python `str.find(sub)` (code-point index of the first occurrence). -/
def findSub (sep : List Char) : List Char → Option Nat
  | [] => if sep.isPrefixOf [] then some 0 else none
  | c :: rest =>
      if sep.isPrefixOf (c :: rest) then some 0
      else (findSub sep rest).map (· + 1)

/-- Python `sub in s`. -/
def containsSub (sep l : List Char) : Bool := (findSub sep l).isSome

/-- The last `n` elements of a list (all of it when it is shorter). -/
def takeLast (n : Nat) (l : List α) : List α := (l.reverse.take n).reverse

/-- Python `l[-n:]` for a natural `n`: because `-0 == 0`, `l[-0:]` is all of `l`. -/
def pySliceLast (n : Nat) (l : List α) : List α :=
  if n = 0 then l else takeLast n l

/-- Appending to a `collections.deque(maxlen := cap)`: the oldest entry is
dropped once the capacity is reached. -/
def appendBounded (cap : Nat) (l : List α) (x : α) : List α :=
  takeLast cap (l ++ [x])

/-- Python `"\n".join(lines)`. -/
def joinLines (ls : List (List Char)) : List Char := List.intercalate (cl "\n") ls

/-! ## Fact store (`memory.py`, class `BotMemory`) -/

/-- One stored fact: the JSON object `{"value": ..., "updated": ...}`. -/
structure StoredFact where
  value : List Char
  updated : Nat
  deriving DecidableEq, Repr

/-- One row of the `user_memory` table (the `user_id` key lives in `DB`). -/
structure UserRow where
  facts : List (String × StoredFact)
  last_seen : Nat
  total_messages : Nat
  deriving DecidableEq, Repr

/-- The `user_memory` table, keyed by `user_id`. -/
def DB := List (Int × UserRow)

instance : DecidableEq DB := by
  unfold DB; infer_instance

/-- `SELECT ... FROM user_memory WHERE user_id = ?`. -/
def dbLookup : DB → Int → Option UserRow
  | [], _ => none
  | (u', r) :: rest, u => if u' = u then some r else dbLookup rest u

/-- `INSERT ... ON CONFLICT(user_id) DO UPDATE`: replace the row in place or append. -/
def dbUpsert : DB → Int → UserRow → DB
  | [], u, r => [(u, r)]
  | (u', r') :: rest, u, r =>
      if u' = u then (u, r) :: rest else (u', r') :: dbUpsert rest u r

/-- Python `facts[fact_key] = {...}`: replace in place, or append a new key. -/
def upsertFact : List (String × StoredFact) → String → StoredFact → List (String × StoredFact)
  | [], k, f => [(k, f)]
  | (k', f') :: rest, k, f =>
      if k' = k then (k, f) :: rest else (k', f') :: upsertFact rest k f

/-- Lookup of one key in a fact mapping (Python `facts["city"]`). -/
def getFact : List (String × StoredFact) → String → Option StoredFact
  | [], _ => none
  | (k', f) :: rest, k => if k' = k then some f else getFact rest k

/-- `BotMemory.remember_fact` (success path): read the row, upsert the fact
under `fact_key` with `updated = now`, write back `last_seen = now` and
`total_messages = (old or 0) + 1`. -/
def remember_fact (db : DB) (user_id : Int) (fact_key : String)
    (fact_value : List Char) (now : Nat) : DB :=
  let facts := ((dbLookup db user_id).map UserRow.facts).getD []
  let total := ((dbLookup db user_id).map UserRow.total_messages).getD 0
  dbUpsert db user_id ⟨upsertFact facts fact_key ⟨fact_value, now⟩, now, total + 1⟩

/-- `BotMemory.get_user_facts`: the stored mapping, or empty. -/
def get_user_facts (db : DB) (user_id : Int) : List (String × StoredFact) :=
  ((dbLookup db user_id).map UserRow.facts).getD []

/-- The `total_messages` column of a user's row (0 when the row is absent). -/
def totalMessages (db : DB) (user_id : Int) : Nat :=
  ((dbLookup db user_id).map UserRow.total_messages).getD 0

/-- `BotMemory.remember_fact` with the durable write's outcome made explicit:
the Python body has no `try`/`except`, so a failing `INSERT` raises straight
through to the caller; `writeOk = false` models that failure. -/
def remember_fact_io (db : DB) (user_id : Int) (fact_key : String)
    (fact_value : List Char) (now : Nat) (writeOk : Bool) : Except String DB :=
  if writeOk then Except.ok (remember_fact db user_id fact_key fact_value now)
  else Except.error "sqlite I/O error"

/-! ## Fact extractor (`memory.py`, `extract_facts_from_message`) -/

/-- The city loop: `for i, word in enumerate(words): if word in ["из", "в"]
and i + 1 < len(words): ...` — every qualifying pair yields one `city` fact. -/
def cityFacts (words : List (List Char)) : List (String × List Char) :=
  (words.zip (words.drop 1)).filterMap fun wn =>
    if wn.1 = cl "из" ∨ wn.1 = cl "в" then
      if 2 < (pyCapitalize (trimPunct wn.2)).length then
        some ("city", pyCapitalize (trimPunct wn.2))
      else none
    else none

/-- One interest verb: `idx = message_lower.find(interest) + len(interest)`,
then `topic = message[idx:].split('.')[0].split(',')[0].strip()`, kept when
longer than 3 characters.  The slice is taken from the original message. -/
def interestFact (message ml w : List Char) : Option (String × List Char) :=
  match findSub w ml with
  | none => none
  | some i =>
      if i + w.length < ml.length then
        if 3 < (trimWs (((message.drop (i + w.length)).takeWhile (· ≠ '.')).takeWhile
            (· ≠ ','))).length then
          some ("interest",
            trimWs (((message.drop (i + w.length)).takeWhile (· ≠ '.')).takeWhile (· ≠ ',')))
        else none
      else none

/-- Python `parts[1]` of `message_lower.split("меня зовут")` once the trigger
was found at index `i`: the text after the first occurrence, cut at the next
occurrence when there is one. -/
def namePart (ml : List Char) (i : Nat) : List Char :=
  match findSub (cl "меня зовут") (ml.drop (i + (cl "меня зовут").length)) with
  | some j => (ml.drop (i + (cl "меня зовут").length)).take j
  | none => ml.drop (i + (cl "меня зовут").length)

/-- The name branch: `parts = message_lower.split("меня зовут");
parts[1].strip().split()[0].capitalize()`.  When nothing follows the trigger,
`split()` yields `[]` and the `[0]` index raises — modelled by `.error ()`. -/
def nameFacts (ml : List Char) : Except Unit (List (String × List Char)) :=
  match findSub (cl "меня зовут") ml with
  | none => Except.ok []
  | some i =>
      match wsSplit (trimWs (namePart ml i)) with
      | [] => Except.error ()
      | t :: _ => Except.ok [("name", pyCapitalize t)]

/-- `BotMemory.extract_facts_from_message` as the list of
`(fact_key, fact_value)` pairs it passes to `remember_fact`, in call order;
`.error ()` is the `IndexError` of the name branch. -/
def extract_facts_from_message (message : List Char) :
    Except Unit (List (String × List Char)) :=
  match nameFacts (pyLower message) with
  | Except.error e => Except.error e
  | Except.ok nf =>
      Except.ok (nf
        ++ (if containsSub (cl "я из") (pyLower message)
              ∨ containsSub (cl "живу в") (pyLower message) then
            cityFacts (wsSplit (pyLower message))
          else [])
        ++ ([cl "люблю", cl "нравится", cl "увлекаюсь", cl "работаю"]).filterMap
            (interestFact message (pyLower message)))

/-- The extraction call path with the store's outcome explicit: every extracted
pair is written through `remember_fact_io`; the first failing write aborts. -/
def extract_and_store (db : DB) (user_id : Int) (message : List Char)
    (now : Nat) (writeOk : Bool) : Except String DB :=
  match extract_facts_from_message message with
  | Except.error _ => Except.error "IndexError"
  | Except.ok pairs =>
      pairs.foldlM (fun d p => remember_fact_io d user_id p.1 p.2 now writeOk) db

/-! ## Short-term dialogue buffer (`memory.py`) -/

/-- One entry of `BotMemory.short_term[user_id]`. -/
structure STMsg where
  role : String
  content : List Char
  timestamp : Nat
  deriving DecidableEq, Repr

/-- `BotMemory.add_to_short_term`: append to the user's deque of capacity 10. -/
def add_to_short_term (st : Int → List STMsg) (user_id : Int) (role : String)
    (message : List Char) (now : Nat) : Int → List STMsg :=
  fun u => if u = user_id then appendBounded 10 (st u) ⟨role, message, now⟩ else st u

/-- `BotMemory.get_short_term`: Python `messages[-limit:]`. -/
def get_short_term (st : Int → List STMsg) (user_id : Int) (limit : Nat) : List STMsg :=
  pySliceLast limit (st user_id)

/-- Label used when rendering a short-term turn. -/
def roleLabel (role : String) : List Char :=
  if role = "user" then cl "Пользователь" else cl "Шмель"

/-- Rendering of one short-term turn: label, body cut to 100 characters, `...`. -/
def renderST (m : STMsg) : List Char :=
  roleLabel m.role ++ cl ": " ++ m.content.take 100 ++ cl "..."

/-- `BotMemory.get_conversation_context`: header plus all but the last of the
most recent `max_messages` turns, or empty when there is no history. -/
def get_conversation_context (st : Int → List STMsg) (user_id : Int)
    (max_messages : Nat) : List Char :=
  let recent := get_short_term st user_id max_messages
  if recent = [] then []
  else joinLines (cl "\n**Последние сообщения в диалоге:**" :: recent.dropLast.map renderST)

/-- Rendering described by the specification sentence for
`get_conversation_context`: the most recent `max_messages` turns (genuinely
that many, with no slicing quirk at 0), excluding the very last. -/
def conversationContextSpec (history : List STMsg) (max_messages : Nat) : List Char :=
  if history = [] then []
  else joinLines (cl "\n**Последние сообщения в диалоге:**"
    :: (takeLast max_messages history).dropLast.map renderST)

/-! ## Group context tracker (`group_context.py`, class `GroupContextManager`) -/

/-- One entry of `user_history[chat_id][user_id]`. -/
structure UMsg where
  text : List Char
  timestamp : Nat
  is_bot : Bool
  deriving DecidableEq, Repr

/-- One entry of `chat_history[chat_id]`. -/
structure GMsg where
  user_id : Int
  user_name : List Char
  text : List Char
  timestamp : Nat
  is_bot : Bool
  deriving DecidableEq, Repr

/-- The in-memory state of `GroupContextManager`: both `defaultdict`s, with
the empty deque as default. -/
structure GroupState where
  user_history : Int → Int → List UMsg
  chat_history : Int → List GMsg

/-- The state right after `GroupContextManager.__init__`. -/
def initGroup : GroupState := ⟨fun _ _ => [], fun _ => []⟩

/-- `GroupContextManager.add_message`: append to the per-(chat,user) deque
(capacity 10) and to the per-chat deque (capacity 30). -/
def add_message (s : GroupState) (chat_id user_id : Int) (user_name text : List Char)
    (now : Nat) (is_bot_response : Bool) : GroupState :=
  ⟨fun c u =>
      if c = chat_id ∧ u = user_id then
        appendBounded 10 (s.user_history c u) ⟨text, now, is_bot_response⟩
      else s.user_history c u,
    fun c =>
      if c = chat_id then
        appendBounded 30 (s.chat_history c) ⟨user_id, user_name, text, now, is_bot_response⟩
      else s.chat_history c⟩

/-- `GroupContextManager.get_user_context`. -/
def get_user_context_g (s : GroupState) (chat_id user_id : Int)
    (max_messages : Nat) : List Char :=
  let history := s.user_history chat_id user_id
  if history = [] then []
  else joinLines (cl "📝 **История вашего общения со мной:**"
    :: (pySliceLast max_messages history).map fun m =>
         (if m.is_bot then cl "Я" else cl "Вы") ++ cl ": " ++ m.text.take 100 ++ cl "...")

/-- The Python guard `if exclude_user_id and msg["user_id"] == exclude_user_id`:
`None` and `0` are falsy, so only a non-zero id ever filters anything. -/
def exclSkip : Option Int → GMsg → Bool
  | none, _ => false
  | some x, m => decide (x ≠ 0) && (m.user_id == x)

/-- The loop `for msg in reversed(...): if ...: continue; relevant.insert(0, msg)`. -/
def buildRelevant (excl : Option Int) (slice : List GMsg) : List GMsg :=
  slice.reverse.foldl (fun acc m => if exclSkip excl m then acc else m :: acc) []

/-- Header line of the chat-wide context block. -/
def chatHeader : List Char := cl "👥 **Недавние сообщения в чате:**"

/-- Rendering of one chat message: bot glyph, name, body cut to 100, `...`. -/
def renderChatMsg (m : GMsg) : List Char :=
  (if m.is_bot then cl "🤖 " ++ m.user_name else m.user_name)
    ++ cl ": " ++ m.text.take 100 ++ cl "..."

/-- `GroupContextManager.get_chat_context`. -/
def get_chat_context (s : GroupState) (chat_id : Int) (max_messages : Nat)
    (exclude_user_id : Option Int) : List Char :=
  let history := s.chat_history chat_id
  if history = [] then []
  else
    let relevant := buildRelevant exclude_user_id (pySliceLast max_messages history)
    if relevant = [] then []
    else joinLines (chatHeader :: relevant.map renderChatMsg)

/-- Chat context as the specification sentence describes it: the recent slice
with every message authored by `x` removed, chronological order kept. -/
def chatContextSpec (history : List GMsg) (max_messages : Nat) (x : Int) : List Char :=
  if history = [] then []
  else
    let rel := (pySliceLast max_messages history).filter fun m => !(m.user_id == x)
    if rel = [] then []
    else joinLines (chatHeader :: rel.map renderChatMsg)

/-- The dictionary returned by `get_combined_context`. -/
structure CombinedCtx where
  user_context : List Char
  chat_context : List Char
  full_context : List Char
  deriving DecidableEq

/-- `GroupContextManager.get_combined_context`: read both contexts, then append
the current message (side effect on the tracker), and join the two blocks
unless both are empty. -/
def get_combined_context (s : GroupState) (chat_id user_id : Int)
    (user_name current_message : List Char) (now : Nat) : CombinedCtx × GroupState :=
  let uc := get_user_context_g s chat_id user_id 5
  let cc := get_chat_context s chat_id 10 (some user_id)
  let s' := add_message s chat_id user_id user_name current_message now false
  (⟨uc, cc, if uc = [] ∧ cc = [] then [] else uc ++ cl "\n\n" ++ cc⟩, s')

/-! ## Operation sequences for the buffer invariants -/

/-- One `add_to_short_term` call. -/
structure STOp where
  uid : Int
  role : String
  content : List Char
  ts : Nat

/-- One `add_message` call. -/
structure GOp where
  chat : Int
  uid : Int
  uname : List Char
  text : List Char
  ts : Nat
  isBot : Bool

/-- Replay a sequence of `add_to_short_term` calls from the empty state. -/
def runShortTerm (ops : List STOp) : Int → List STMsg :=
  ops.foldl (fun st o => add_to_short_term st o.uid o.role o.content o.ts) (fun _ => [])

/-- Replay a sequence of `add_message` calls from the fresh manager. -/
def runGroup (ops : List GOp) : GroupState :=
  ops.foldl (fun s o => add_message s o.chat o.uid o.uname o.text o.ts o.isBot) initGroup

/-- The short-term entries a user's calls would insert, in order. -/
def stProj (uid : Int) (ops : List STOp) : List STMsg :=
  (ops.filter fun o => o.uid == uid).map fun o => ⟨o.role, o.content, o.ts⟩

/-- The chat-wide entries a chat's calls would insert, in order. -/
def gProjChat (chat : Int) (ops : List GOp) : List GMsg :=
  (ops.filter fun o => o.chat == chat).map fun o => ⟨o.uid, o.uname, o.text, o.ts, o.isBot⟩

/-- The per-(chat,user) entries the calls would insert, in order. -/
def gProjUser (chat uid : Int) (ops : List GOp) : List UMsg :=
  (ops.filter fun o => o.chat == chat && o.uid == uid).map fun o => ⟨o.text, o.ts, o.isBot⟩

/-! ## The group message handler (`bot.py`, `handle_message`) -/

/-- What the handler produces: the text sent back, and both buffer states. -/
structure HandlerOut where
  sent : List Char
  grp : GroupState
  stm : Int → List STMsg

/-- The buffer-relevant pipeline of `handle_message` once the bot decided to
reply: record the incoming message (line 413), read the combined context
(which records it again), call the LLM; on success append the assistant turn
to both trackers and send the reply, on failure send the fixed apology and
touch no buffer. -/
def handle_group_message (grp : GroupState) (stm : Int → List STMsg)
    (chat_id user_id bot_id : Int) (user_name original_message : List Char)
    (now reply_now : Nat) (llm : Except (List Char) (List Char)) : HandlerOut :=
  let grp1 := add_message grp chat_id user_id user_name original_message now false
  let combined := get_combined_context grp1 chat_id user_id user_name original_message now
  let grp2 := combined.2
  match llm with
  | Except.ok reply =>
      ⟨reply,
        add_message grp2 chat_id bot_id (cl "Шмель") reply reply_now true,
        add_to_short_term stm user_id "assistant" reply reply_now⟩
  | Except.error _ =>
      ⟨cl "😔 Извините, произошла ошибка.", grp2, stm⟩

/-! ## Toolbox lemmas about `takeLast` and the bounded append -/

theorem takeLast_length (n : Nat) (l : List α) :
    (takeLast n l).length = min n l.length := by
  simp [takeLast]

theorem takeLast_of_length_le {n : Nat} {l : List α} (h : l.length ≤ n) :
    takeLast n l = l := by
  unfold takeLast
  rw [List.take_of_length_le (by simpa using h), List.reverse_reverse]

theorem take_append_take (n : Nat) (x y : List α) :
    (x ++ y.take n).take n = (x ++ y).take n := by
  rw [List.take_append_eq_append_take, List.take_take,
    List.take_append_eq_append_take]
  congr 1
  congr 1
  omega

theorem takeLast_append_takeLast (n : Nat) (l m : List α) :
    takeLast n (takeLast n l ++ m) = takeLast n (l ++ m) := by
  unfold takeLast
  rw [List.reverse_append, List.reverse_reverse, List.reverse_append]
  rw [take_append_take]

theorem foldl_appendBounded {n : Nat} (xs : List α) (l : List α) (h : l.length ≤ n) :
    xs.foldl (appendBounded n) l = takeLast n (l ++ xs) := by
  induction xs generalizing l with
  | nil => simpa using (takeLast_of_length_le h).symm
  | cons x xs ih =>
      have hlen : (appendBounded n l x).length ≤ n := by
        simp [appendBounded, takeLast_length]
      calc (x :: xs).foldl (appendBounded n) l
          = xs.foldl (appendBounded n) (appendBounded n l x) := rfl
        _ = takeLast n (appendBounded n l x ++ xs) := ih _ hlen
        _ = takeLast n ((l ++ [x]) ++ xs) := by
            rw [appendBounded, takeLast_append_takeLast]
        _ = takeLast n (l ++ x :: xs) := by simp

theorem takeLast_eq_nil_iff {n : Nat} {l : List α} :
    takeLast n l = [] ↔ n = 0 ∨ l = [] := by
  unfold takeLast
  rw [List.reverse_eq_nil_iff, List.take_eq_nil_iff, List.reverse_eq_nil_iff]

theorem mem_takeLast_append_last {n : Nat} (hn : 0 < n) (l : List α) (x : α) :
    x ∈ takeLast n (l ++ [x]) := by
  unfold takeLast
  obtain ⟨m, rfl⟩ : ∃ m, n = m + 1 := ⟨n - 1, by omega⟩
  rw [List.reverse_append]
  simp

theorem pySliceLast_pos {n : Nat} (hn : n ≠ 0) (l : List α) :
    pySliceLast n l = takeLast n l := by
  simp [pySliceLast, hn]

theorem takeLast_suffix (n : Nat) (l : List α) : takeLast n l <:+ l := by
  have h1 : (takeLast n l).reverse <+: l.reverse := by
    unfold takeLast
    rw [List.reverse_reverse]
    exact List.take_prefix n l.reverse
  exact (List.reverse_prefix).mp h1

/-! ## Toolbox lemmas about the fact store -/

theorem dbLookup_dbUpsert (db : DB) (u : Int) (r : UserRow) :
    dbLookup (dbUpsert db u r) u = some r := by
  induction db with
  | nil => simp [dbUpsert, dbLookup]
  | cons hd rest ih =>
      by_cases h : hd.1 = u
      · simp [dbUpsert, dbLookup, h]
      · simp [dbUpsert, dbLookup, h, ih]

theorem getFact_upsertFact (fs : List (String × StoredFact)) (k : String) (f : StoredFact) :
    getFact (upsertFact fs k f) k = some f := by
  induction fs with
  | nil => simp [upsertFact, getFact]
  | cons hd rest ih =>
      by_cases h : hd.1 = k
      · simp [upsertFact, getFact, h]
      · simp [upsertFact, getFact, h, ih]

theorem upsertFact_upsertFact (fs : List (String × StoredFact)) (k : String)
    (f g : StoredFact) : upsertFact (upsertFact fs k f) k g = upsertFact fs k g := by
  induction fs with
  | nil => simp [upsertFact]
  | cons hd rest ih =>
      by_cases h : hd.1 = k
      · simp [upsertFact, h]
      · simp [upsertFact, h, ih]

theorem get_user_facts_remember_fact (db : DB) (u : Int) (k : String)
    (v : List Char) (t : Nat) :
    get_user_facts (remember_fact db u k v t) u
      = upsertFact (get_user_facts db u) k ⟨v, t⟩ := by
  unfold get_user_facts remember_fact
  rw [dbLookup_dbUpsert]
  rfl

theorem totalMessages_remember_fact (db : DB) (u : Int) (k : String)
    (v : List Char) (t : Nat) :
    totalMessages (remember_fact db u k v t) u = totalMessages db u + 1 := by
  unfold totalMessages remember_fact
  rw [dbLookup_dbUpsert]
  rfl

/-! ## Toolbox lemmas about the group tracker -/

theorem buildRelevant_eq_filter (excl : Option Int) (l : List GMsg) :
    buildRelevant excl l = l.filter fun m => !exclSkip excl m := by
  unfold buildRelevant
  rw [List.foldl_reverse]
  induction l with
  | nil => rfl
  | cons m rest ih =>
      by_cases h : exclSkip excl m
      · simp [List.foldr_cons, h, List.filter_cons, ih]
      · simp [List.foldr_cons, h, List.filter_cons, ih]

/-! ## Replay lemmas for the buffer invariants -/

theorem runShortTerm_general (ops : List STOp) (st : Int → List STMsg) (uid : Int) :
    (ops.foldl (fun st o => add_to_short_term st o.uid o.role o.content o.ts) st) uid
      = (stProj uid ops).foldl (appendBounded 10) (st uid) := by
  induction ops generalizing st with
  | nil => rfl
  | cons o rest ih =>
      rw [List.foldl_cons, ih]
      by_cases h : o.uid = uid
      · simp [stProj, List.filter_cons, h, add_to_short_term]
      · have h' : ¬(uid = o.uid) := fun hh => h hh.symm
        simp [stProj, List.filter_cons, h, add_to_short_term, h']

theorem runGroup_chat_general (ops : List GOp) (s : GroupState) (chat : Int) :
    (ops.foldl (fun s o => add_message s o.chat o.uid o.uname o.text o.ts o.isBot) s).chat_history chat
      = (gProjChat chat ops).foldl (appendBounded 30) (s.chat_history chat) := by
  induction ops generalizing s with
  | nil => rfl
  | cons o rest ih =>
      rw [List.foldl_cons, ih]
      by_cases h : o.chat = chat
      · simp [gProjChat, List.filter_cons, h, add_message]
      · have h' : ¬(chat = o.chat) := fun hh => h hh.symm
        simp [gProjChat, List.filter_cons, h, add_message, h']

theorem runGroup_user_general (ops : List GOp) (s : GroupState) (chat uid : Int) :
    (ops.foldl (fun s o => add_message s o.chat o.uid o.uname o.text o.ts o.isBot) s).user_history chat uid
      = (gProjUser chat uid ops).foldl (appendBounded 10) (s.user_history chat uid) := by
  induction ops generalizing s with
  | nil => rfl
  | cons o rest ih =>
      rw [List.foldl_cons, ih]
      by_cases h1 : o.chat = chat
      · by_cases h2 : o.uid = uid
        · simp [gProjUser, List.filter_cons, h1, h2, add_message]
        · have hne : ¬(chat = o.chat ∧ uid = o.uid) := by
            intro hh
            exact h2 hh.2.symm
          have h2' : ¬(uid = o.uid) := by
            intro hh
            exact h2 hh.symm
          simp [gProjUser, List.filter_cons, h1, h2, add_message, hne, h2']
      · have hne : ¬(chat = o.chat ∧ uid = o.uid) := by
          intro hh
          exact h1 hh.1.symm
        simp [gProjUser, List.filter_cons, h1, add_message, hne]

/-! ## Infix lemmas for the extractor -/

theorem trimEndBy_front (p : Char → Bool) (l : List Char) : trimEndBy p l <+: l := by
  have h1 : (trimEndBy p l).reverse <:+ l.reverse := by
    unfold trimEndBy
    rw [List.reverse_reverse]
    exact List.dropWhile_suffix p
  exact (List.reverse_suffix).mp h1

theorem trimBy_within (p : Char → Bool) (l : List Char) : trimBy p l <:+: l := by
  unfold trimBy
  have h1 := List.IsPrefix.isInfix (trimEndBy_front p (l.dropWhile p))
  have h2 := List.IsSuffix.isInfix (List.dropWhile_suffix (l := l) p)
  exact List.IsInfix.trans h1 h2

theorem wsSplitAux_mem_within (l : List Char) :
    ∀ (acc t : List Char), t ∈ wsSplitAux l acc → t <:+: acc.reverse ++ l := by
  induction l with
  | nil =>
      intro acc t ht
      unfold wsSplitAux at ht
      by_cases h : acc = []
      · simp [h] at ht
      · simp [h] at ht
        subst ht
        simp
  | cons c rest ih =>
      intro acc t ht
      unfold wsSplitAux at ht
      by_cases hws : isWs c
      · by_cases h : acc = []
        · simp [hws, h] at ht
          have := ih [] t ht
          simp at this
          subst h
          simpa using List.infix_cons this
        · simp [hws, h] at ht
          rcases ht with ht | ht
          · subst ht
            exact List.IsPrefix.isInfix (List.prefix_append acc.reverse (c :: rest))
          · have h1 := ih [] t ht
            simp at h1
            have h2 : rest <:+ acc.reverse ++ c :: rest := by
              refine ⟨acc.reverse ++ [c], ?_⟩
              simp
            exact List.IsInfix.trans h1 (List.IsSuffix.isInfix h2)
      · simp [hws] at ht
        have h1 := ih (c :: acc) t ht
        simpa [List.append_assoc] using h1

theorem mem_wsSplit_within {l t : List Char} (h : t ∈ wsSplit l) : t <:+: l := by
  have h1 := wsSplitAux_mem_within l [] t h
  simpa using h1

/-! ## Claim theorems -/

/-- C1: the spec says extraction never raises and non-matching text is a
silent no-op.  Non-matching text is indeed a no-op, but a message that ends
exactly at the trigger phrase "меня зовут" makes the Python code evaluate
`parts[1].strip().split()[0]` on an empty token list, raising `IndexError`
(the `.error ()` branch of the embedding), so the "never raises" half of the
claim fails on exactly the tail-trigger input the claim singles out. -/
theorem extract_trigger_tail_raises :
    extract_facts_from_message (cl "привет, как дела") = Except.ok []
    ∧ extract_facts_from_message (cl "меня зовут") = Except.error () := by
  constructor
  · rfl
  · rfl

/-- C3 counterexample: repeating `remember_fact` with identical arguments does
not leave the durable row unchanged — the second call bumps `total_messages`,
so the rows after one and after two identical calls differ. -/
theorem remember_fact_idem_cex :
    remember_fact (remember_fact [] 1 "city" (cl "Paris") 0) 1 "city" (cl "Paris") 0
      ≠ remember_fact [] 1 "city" (cl "Paris") 0 := by
  decide

/-- C3 amended: repeating `remember_fact` with identical arguments (same
timestamp) leaves the facts mapping exactly as after one call, but the
`total_messages` column increments on every call, so the full record is not
idempotent. -/
theorem remember_fact_repeat (db : DB) (u : Int) (k : String) (v : List Char) (t : Nat) :
    get_user_facts (remember_fact (remember_fact db u k v t) u k v t) u
      = get_user_facts (remember_fact db u k v t) u
    ∧ totalMessages (remember_fact (remember_fact db u k v t) u k v t) u
      = totalMessages (remember_fact db u k v t) u + 1 := by
  constructor
  · rw [get_user_facts_remember_fact, get_user_facts_remember_fact, upsertFact_upsertFact]
  · rw [totalMessages_remember_fact]

/-- C4 counterexample: when the durable write fails, `remember_fact` does not
fail silently — the error is what the caller receives. -/
theorem remember_fact_io_cex :
    remember_fact_io [] 1 "city" (cl "Paris") 0 false
      = Except.error "sqlite I/O error" := by
  rfl

/-- C4 amended: `remember_fact` has no exception handler, so a storage I/O
failure propagates to the caller, and through `extract_facts_from_message`'s
call sites it aborts the extraction path as soon as a fact is to be stored. -/
theorem remember_fact_error_propagates (db : DB) (u : Int) (msg : List Char) (t : Nat)
    (pairs : List (String × List Char))
    (h1 : extract_facts_from_message msg = Except.ok pairs) (h2 : pairs ≠ []) :
    (∀ k v t', remember_fact_io db u k v t' false = Except.error "sqlite I/O error")
    ∧ extract_and_store db u msg t false = Except.error "sqlite I/O error" := by
  constructor
  · intro k v t'
    rfl
  · unfold extract_and_store
    rw [h1]
    cases pairs with
    | nil => exact absurd rfl h2
    | cons p rest => rfl

/-- Witness for C4's amended theorem at a concrete extraction. -/
theorem remember_fact_error_propagates_w :
    extract_facts_from_message (cl "меня зовут Анна") = Except.ok [("name", cl "Анна")]
    ∧ ([("name", cl "Анна")] : List (String × List Char)) ≠ []
    ∧ ((∀ k v t', remember_fact_io [] 1 k v t' false = Except.error "sqlite I/O error")
      ∧ extract_and_store [] 1 (cl "меня зовут Анна") 0 false
          = Except.error "sqlite I/O error") :=
  ⟨by rfl, by simp,
    remember_fact_error_propagates [] 1 (cl "меня зовут Анна") 0
      [("name", cl "Анна")] (by rfl) (by simp)⟩

/-- C7: facts are last-write-wins per key — after storing city Paris at `t1`
and city Lyon at a later `t2`, the stored city is Lyon with timestamp `t2`,
the intermediate state held Paris with timestamp `t1`, and the stored
timestamp strictly increased. -/
theorem remember_fact_last_write_wins (db : DB) (u : Int) (t1 t2 : Nat) (h : t1 < t2) :
    getFact (get_user_facts (remember_fact db u "city" (cl "Paris") t1) u) "city"
      = some ⟨cl "Paris", t1⟩
    ∧ getFact (get_user_facts
        (remember_fact (remember_fact db u "city" (cl "Paris") t1) u "city" (cl "Lyon") t2) u)
        "city" = some ⟨cl "Lyon", t2⟩
    ∧ t1 < t2 := by
  refine ⟨?_, ?_, h⟩
  · rw [get_user_facts_remember_fact, getFact_upsertFact]
  · rw [get_user_facts_remember_fact, getFact_upsertFact]

/-- Witness for C7 at the empty table with timestamps 0 and 1. -/
theorem remember_fact_last_write_wins_w :
    (0 : Nat) < 1
    ∧ (getFact (get_user_facts (remember_fact [] 1 "city" (cl "Paris") 0) 1) "city"
          = some ⟨cl "Paris", 0⟩
      ∧ getFact (get_user_facts
          (remember_fact (remember_fact [] 1 "city" (cl "Paris") 0) 1 "city" (cl "Lyon") 1) 1)
          "city" = some ⟨cl "Lyon", 1⟩
      ∧ (0 : Nat) < 1) :=
  ⟨by decide, remember_fact_last_write_wins [] 1 0 1 (by decide)⟩

theorem joinLines_cons_ne_nil {a : List Char} (ha : a ≠ []) (ls : List (List Char)) :
    joinLines (a :: ls) ≠ [] := by
  unfold joinLines List.intercalate
  cases ls with
  | nil => simpa using ha
  | cons b rest =>
      rw [List.intersperse_cons_cons, List.flatten_cons]
      intro hh
      rcases List.append_eq_nil.mp hh with ⟨h1, _⟩
      exact ha h1

/-- C5 counterexample: with `max_messages = 0` the Python slice `[-0:]` is the
whole history, so the code renders every turn but the last instead of none —
the rendering the claim describes for arbitrary `max_messages` fails at 0. -/
theorem get_conversation_context_zero_cex :
    get_conversation_context
      (add_to_short_term (add_to_short_term (fun _ => []) 7 "user" (cl "a") 0)
        7 "user" (cl "b") 1) 7 0
    ≠ conversationContextSpec
      ((add_to_short_term (add_to_short_term (fun _ => []) 7 "user" (cl "a") 0)
        7 "user" (cl "b") 1) 7) 0 := by
  decide

/-- C5 amended: for every positive `max_messages` the rendered context is
exactly the claim's rendering (most recent `max_messages` turns, minus the
very last, each body truncated to 100 characters), and the result is the
empty string exactly when the user has no history.  (At `max_messages = 0`
the code instead renders the whole history minus its last turn.) -/
theorem get_conversation_context_spec (st : Int → List STMsg) (uid : Int)
    (maxm : Nat) (h : 1 ≤ maxm) :
    get_conversation_context st uid maxm = conversationContextSpec (st uid) maxm
    ∧ (get_conversation_context st uid maxm = [] ↔ st uid = []) := by
  have hz : maxm ≠ 0 := by omega
  have hcond : (takeLast maxm (st uid) = []) ↔ (st uid = []) := by
    rw [takeLast_eq_nil_iff]
    simp [hz]
  unfold get_conversation_context get_short_term conversationContextSpec
  rw [pySliceLast_pos hz]
  by_cases hsu : st uid = []
  · have hnil : takeLast maxm (st uid) = [] := hcond.mpr hsu
    simp [hnil, hsu, takeLast]
  · have ht : takeLast maxm (st uid) ≠ [] := fun hh => hsu (hcond.mp hh)
    rw [if_neg ht, if_neg hsu]
    refine ⟨rfl, ?_⟩
    constructor
    · intro hh
      exact absurd hh (joinLines_cons_ne_nil (by decide) _)
    · intro hh
      exact absurd hh hsu

/-- Witness for C5's amended theorem at a one-turn history and the default 5. -/
theorem get_conversation_context_spec_w :
    (1 : Nat) ≤ 5
    ∧ (get_conversation_context (add_to_short_term (fun _ => []) 7 "user" (cl "привет") 0) 7 5
        = conversationContextSpec
            ((add_to_short_term (fun _ => []) 7 "user" (cl "привет") 0) 7) 5
      ∧ (get_conversation_context (add_to_short_term (fun _ => []) 7 "user" (cl "привет") 0) 7 5
            = []
          ↔ (add_to_short_term (fun _ => []) 7 "user" (cl "привет") 0) 7 = [])) :=
  ⟨by decide,
    get_conversation_context_spec (add_to_short_term (fun _ => []) 7 "user" (cl "привет") 0)
      7 5 (by decide)⟩

/-- C2 counterexample: the guard `if exclude_user_id and ...` treats the id 0
as falsy, so `get_chat_context(chat, exclude_user_id := 0)` filters nothing —
the message authored by user 0 stays in the relevant slice and in the output,
while the claim's rendering would drop it and return the empty string. -/
theorem get_chat_context_zero_cex :
    get_chat_context (add_message initGroup 1 0 (cl "Аня") (cl "привет") 0 false)
        1 10 (some 0)
      ≠ chatContextSpec
          ((add_message initGroup 1 0 (cl "Аня") (cl "привет") 0 false).chat_history 1) 10 0
    ∧ (buildRelevant (some 0)
        (pySliceLast 10
          ((add_message initGroup 1 0 (cl "Аня") (cl "привет") 0 false).chat_history 1))).any
        (fun m => m.user_id == 0) = true := by
  decide

/-- C2 amended: for every non-zero excluded id `x`, `get_chat_context` renders
exactly the recent slice with every message authored by `x` filtered out; no
surviving message is authored by `x`, and the surviving messages form a
sublist of the chat history, i.e. their chronological order is preserved.
(For `x = 0` the Python truthiness guard disables the filter entirely.) -/
theorem get_chat_context_excludes (s : GroupState) (chat x : Int) (maxm : Nat)
    (h : x ≠ 0) :
    get_chat_context s chat maxm (some x) = chatContextSpec (s.chat_history chat) maxm x
    ∧ (∀ m ∈ (pySliceLast maxm (s.chat_history chat)).filter
          (fun m => !(m.user_id == x)), m.user_id ≠ x)
    ∧ List.Sublist
        ((pySliceLast maxm (s.chat_history chat)).filter fun m => !(m.user_id == x))
        (s.chat_history chat) := by
  have hfil : (fun (m : GMsg) => !exclSkip (some x) m) = fun m => !(m.user_id == x) := by
    funext m
    simp [exclSkip, h]
  refine ⟨?_, ?_, ?_⟩
  · unfold get_chat_context chatContextSpec
    simp only [buildRelevant_eq_filter, hfil]
  · intro m hm
    have h2 := (List.mem_filter.mp hm).2
    simpa using h2
  · have h1 : List.Sublist (pySliceLast maxm (s.chat_history chat)) (s.chat_history chat) := by
      unfold pySliceLast
      by_cases hz : maxm = 0
      · simp [hz]
      · rw [if_neg hz]
        exact List.IsSuffix.sublist (takeLast_suffix maxm _)
    exact List.Sublist.trans (List.filter_sublist _) h1

/-- Witness for C2's amended theorem on a two-message chat excluding user 5. -/
theorem get_chat_context_excludes_w :
    ((5 : Int) ≠ 0)
    ∧ (get_chat_context
          (add_message (add_message initGroup 1 5 (cl "Ира") (cl "ку") 0 false)
            1 3 (cl "Оля") (cl "да") 1 false) 1 10 (some 5)
        = chatContextSpec
            ((add_message (add_message initGroup 1 5 (cl "Ира") (cl "ку") 0 false)
              1 3 (cl "Оля") (cl "да") 1 false).chat_history 1) 10 5
      ∧ (∀ m ∈ (pySliceLast 10
            ((add_message (add_message initGroup 1 5 (cl "Ира") (cl "ку") 0 false)
              1 3 (cl "Оля") (cl "да") 1 false).chat_history 1)).filter
            (fun m => !(m.user_id == 5)), m.user_id ≠ 5)
      ∧ List.Sublist
          ((pySliceLast 10
            ((add_message (add_message initGroup 1 5 (cl "Ира") (cl "ку") 0 false)
              1 3 (cl "Оля") (cl "да") 1 false).chat_history 1)).filter
            fun m => !(m.user_id == 5))
          ((add_message (add_message initGroup 1 5 (cl "Ира") (cl "ку") 0 false)
            1 3 (cl "Оля") (cl "да") 1 false).chat_history 1)) :=
  ⟨by decide,
    get_chat_context_excludes
      (add_message (add_message initGroup 1 5 (cl "Ира") (cl "ку") 0 false)
        1 3 (cl "Оля") (cl "да") 1 false) 1 5 10 (by decide)⟩

/-- C8: when both the per-(chat,user) and the per-chat histories are empty,
`get_combined_context` returns an empty `full_context`, and as a side effect
records the current message in both trackers, so that a subsequent
`get_chat_context` read for that chat renders it. -/
theorem get_combined_context_empty (s : GroupState) (chat uid : Int)
    (uname msg : List Char) (ts : Nat)
    (hu : s.user_history chat uid = []) (hc : s.chat_history chat = []) :
    (get_combined_context s chat uid uname msg ts).1.full_context = []
    ∧ (get_combined_context s chat uid uname msg ts).2.chat_history chat
        = [⟨uid, uname, msg, ts, false⟩]
    ∧ (get_combined_context s chat uid uname msg ts).2.user_history chat uid
        = [⟨msg, ts, false⟩]
    ∧ get_chat_context (get_combined_context s chat uid uname msg ts).2 chat 10 none
        = joinLines [chatHeader, renderChatMsg ⟨uid, uname, msg, ts, false⟩] := by
  have hadd : (add_message s chat uid uname msg ts false).chat_history chat
      = [⟨uid, uname, msg, ts, false⟩] := by
    simp [add_message, appendBounded, hc, takeLast]
  have haddu : (add_message s chat uid uname msg ts false).user_history chat uid
      = [⟨msg, ts, false⟩] := by
    simp [add_message, appendBounded, hu, takeLast]
  refine ⟨?_, ?_, ?_, ?_⟩
  · simp [get_combined_context, get_user_context_g, get_chat_context, hu, hc]
  · simpa [get_combined_context] using hadd
  · simpa [get_combined_context] using haddu
  · simp [get_combined_context, get_chat_context, hadd, pySliceLast, takeLast,
      buildRelevant, exclSkip]

/-- Witness for C8 on the freshly initialised tracker. -/
theorem get_combined_context_empty_w :
    initGroup.user_history 1 2 = []
    ∧ initGroup.chat_history 1 = []
    ∧ ((get_combined_context initGroup 1 2 (cl "Аня") (cl "привет") 0).1.full_context = []
      ∧ (get_combined_context initGroup 1 2 (cl "Аня") (cl "привет") 0).2.chat_history 1
          = [⟨2, cl "Аня", cl "привет", 0, false⟩]
      ∧ (get_combined_context initGroup 1 2 (cl "Аня") (cl "привет") 0).2.user_history 1 2
          = [⟨cl "привет", 0, false⟩]
      ∧ get_chat_context (get_combined_context initGroup 1 2 (cl "Аня") (cl "привет") 0).2 1 10
          none = joinLines [chatHeader, renderChatMsg ⟨2, cl "Аня", cl "привет", 0, false⟩]) :=
  ⟨rfl, rfl, get_combined_context_empty initGroup 1 2 (cl "Аня") (cl "привет") 0 rfl rfl⟩

/-- C9: when the LLM call fails, the handler answers with the fixed apology,
the short-term buffer is untouched, the group state is exactly the state left
by `get_combined_context` (no assistant turn is appended anywhere), and the
user's own message is still recorded in the chat history. -/
theorem handle_message_llm_failure (grp : GroupState) (stm : Int → List STMsg)
    (chat uid botId : Int) (uname origMsg : List Char) (ts ts2 : Nat)
    (llm : Except (List Char) (List Char)) (e : List Char)
    (h : llm = Except.error e) :
    (handle_group_message grp stm chat uid botId uname origMsg ts ts2 llm).sent
        = cl "😔 Извините, произошла ошибка."
    ∧ (handle_group_message grp stm chat uid botId uname origMsg ts ts2 llm).stm = stm
    ∧ (handle_group_message grp stm chat uid botId uname origMsg ts ts2 llm).grp
        = (get_combined_context (add_message grp chat uid uname origMsg ts false)
            chat uid uname origMsg ts).2
    ∧ (⟨uid, uname, origMsg, ts, false⟩ : GMsg)
        ∈ (handle_group_message grp stm chat uid botId uname origMsg ts ts2 llm).grp.chat_history
            chat := by
  subst h
  refine ⟨rfl, rfl, rfl, ?_⟩
  have hg : (handle_group_message grp stm chat uid botId uname origMsg ts ts2
        (Except.error e)).grp.chat_history chat
      = takeLast 30 ((add_message grp chat uid uname origMsg ts false).chat_history chat
          ++ [⟨uid, uname, origMsg, ts, false⟩]) := by
    simp [handle_group_message, get_combined_context, add_message, appendBounded]
  rw [hg]
  exact mem_takeLast_append_last (by omega) _ _

/-- Witness for C9 with a failing LLM call on the fresh state. -/
theorem handle_message_llm_failure_w :
    (Except.error (cl "boom") : Except (List Char) (List Char)) = Except.error (cl "boom")
    ∧ ((handle_group_message initGroup (fun _ => []) 1 2 99 (cl "Аня") (cl "привет") 0 1
          (Except.error (cl "boom"))).sent = cl "😔 Извините, произошла ошибка."
      ∧ (handle_group_message initGroup (fun _ => []) 1 2 99 (cl "Аня") (cl "привет") 0 1
          (Except.error (cl "boom"))).stm = (fun _ => [])
      ∧ (handle_group_message initGroup (fun _ => []) 1 2 99 (cl "Аня") (cl "привет") 0 1
          (Except.error (cl "boom"))).grp
          = (get_combined_context (add_message initGroup 1 2 (cl "Аня") (cl "привет") 0 false)
              1 2 (cl "Аня") (cl "привет") 0).2
      ∧ (⟨2, cl "Аня", cl "привет", 0, false⟩ : GMsg)
          ∈ (handle_group_message initGroup (fun _ => []) 1 2 99 (cl "Аня") (cl "привет") 0 1
              (Except.error (cl "boom"))).grp.chat_history 1) :=
  ⟨rfl,
    handle_message_llm_failure initGroup (fun _ => []) 1 2 99 (cl "Аня") (cl "привет") 0 1
      (Except.error (cl "boom")) (cl "boom") rfl⟩

/-- C6: replaying any sequence of `add_to_short_term` calls and any sequence
of `add_message` calls from the initial states, every buffer holds exactly
the most recent entries that targeted it, in insertion order — capacity 10
for the per-user short-term deque, 30 for the per-chat deque and 10 for the
per-(chat,user) deque — so no buffer ever exceeds its capacity and eviction
is strict FIFO (the oldest entry beyond capacity is gone). -/
theorem buffers_bounded_fifo (stOps : List STOp) (gOps : List GOp)
    (uid chat guid : Int) :
    runShortTerm stOps uid = takeLast 10 (stProj uid stOps)
    ∧ (runShortTerm stOps uid).length ≤ 10
    ∧ (runGroup gOps).chat_history chat = takeLast 30 (gProjChat chat gOps)
    ∧ ((runGroup gOps).chat_history chat).length ≤ 30
    ∧ (runGroup gOps).user_history chat guid = takeLast 10 (gProjUser chat guid gOps)
    ∧ ((runGroup gOps).user_history chat guid).length ≤ 10 := by
  have h1 : runShortTerm stOps uid = takeLast 10 (stProj uid stOps) := by
    unfold runShortTerm
    rw [runShortTerm_general, foldl_appendBounded _ _ (by simp)]
    simp
  have h2 : (runGroup gOps).chat_history chat = takeLast 30 (gProjChat chat gOps) := by
    unfold runGroup
    rw [runGroup_chat_general, foldl_appendBounded _ _ (by simp [initGroup])]
    simp [initGroup]
  have h3 : (runGroup gOps).user_history chat guid
      = takeLast 10 (gProjUser chat guid gOps) := by
    unfold runGroup
    rw [runGroup_user_general, foldl_appendBounded _ _ (by simp [initGroup])]
    simp [initGroup]
  refine ⟨h1, ?_, h2, ?_, h3, ?_⟩
  · rw [h1, takeLast_length]
    omega
  · rw [h2, takeLast_length]
    omega
  · rw [h3, takeLast_length]
    omega

theorem namePart_within (ml : List Char) (i : Nat) : namePart ml i <:+: ml := by
  unfold namePart
  cases hf : findSub (cl "меня зовут") (ml.drop (i + (cl "меня зовут").length)) with
  | some j =>
      simp only [hf]
      have h1 := List.IsPrefix.isInfix
        (List.take_prefix j (ml.drop (i + (cl "меня зовут").length)))
      have h2 := List.IsSuffix.isInfix
        (List.drop_suffix (i + (cl "меня зовут").length) ml)
      exact List.IsInfix.trans h1 h2
  | none =>
      simp only [hf]
      exact List.IsSuffix.isInfix (List.drop_suffix _ ml)

theorem nameFacts_mem {ml : List Char} {nf : List (String × List Char)}
    (h : nameFacts ml = Except.ok nf) :
    ∀ p ∈ nf, ∃ t, t <:+: ml ∧ p = ("name", pyCapitalize t) := by
  intro p hp
  unfold nameFacts at h
  cases hfind : findSub (cl "меня зовут") ml with
  | none =>
      simp only [hfind] at h
      injection h with hnil
      rw [← hnil] at hp
      simp at hp
  | some i =>
      simp only [hfind] at h
      cases hsplit : wsSplit (trimWs (namePart ml i)) with
      | nil =>
          rw [hsplit] at h
          simp at h
      | cons t ts =>
          rw [hsplit] at h
          injection h with hone
          rw [← hone] at hp
          have hpt : p = ("name", pyCapitalize t) := by simpa using hp
          have ht : t ∈ wsSplit (trimWs (namePart ml i)) := by
            rw [hsplit]
            exact List.mem_cons_self t ts
          have h1 := mem_wsSplit_within ht
          have h2 := trimBy_within isWs (namePart ml i)
          have h3 := namePart_within ml i
          exact ⟨t, List.IsInfix.trans h1 (List.IsInfix.trans h2 h3), hpt⟩

theorem cityFacts_mem {ml : List Char} {p : String × List Char}
    (hp : p ∈ cityFacts (wsSplit ml)) :
    ∃ t, t <:+: ml ∧ p = ("city", pyCapitalize t) := by
  unfold cityFacts at hp
  rcases List.mem_filterMap.mp hp with ⟨wn, hwn, hf⟩
  by_cases hcond : wn.1 = cl "из" ∨ wn.1 = cl "в"
  · rw [if_pos hcond] at hf
    by_cases hlen : 2 < (pyCapitalize (trimPunct wn.2)).length
    · rw [if_pos hlen] at hf
      injection hf with hf1
      have hwm : wn.2 ∈ wsSplit ml := by
        have hz := ( List.of_mem_zip hwn).2
        exact List.mem_of_mem_drop hz
      refine ⟨trimPunct wn.2, ?_, hf1.symm⟩
      exact List.IsInfix.trans (trimBy_within isPunct wn.2) (mem_wsSplit_within hwm)
    · rw [if_neg hlen] at hf
      simp at hf
  · rw [if_neg hcond] at hf
    simp at hf

theorem interestFact_mem {message ml w : List Char} {p : String × List Char}
    (h : interestFact message ml w = some p) :
    p.1 = "interest" ∧ p.2 <:+: message := by
  unfold interestFact at h
  cases hf : findSub w ml with
  | none =>
      simp only [hf] at h
      simp at h
  | some i =>
      simp only [hf] at h
      by_cases h1 : i + w.length < ml.length
      · rw [if_pos h1] at h
        by_cases h2 : 3 < (trimWs (((message.drop (i + w.length)).takeWhile
            (· ≠ '.')).takeWhile (· ≠ ','))).length
        · rw [if_pos h2] at h
          injection h with h3
          rw [← h3]
          refine ⟨rfl, ?_⟩
          have i1 := trimBy_within isWs
            (((message.drop (i + w.length)).takeWhile (· ≠ '.')).takeWhile (· ≠ ','))
          have i2 := List.IsPrefix.isInfix
            (List.takeWhile_prefix (l := (message.drop (i + w.length)).takeWhile (· ≠ '.'))
              (· ≠ ','))
          have i3 := List.IsPrefix.isInfix
            (List.takeWhile_prefix (l := message.drop (i + w.length)) (· ≠ '.'))
          have i4 := List.IsSuffix.isInfix (List.drop_suffix (i + w.length) message)
          exact List.IsInfix.trans i1
            (List.IsInfix.trans i2 (List.IsInfix.trans i3 i4))
        · rw [if_neg h2] at h
          simp at h
      · rw [if_neg h1] at h
        simp at h

/-- C10: every `name` or `city` value stored by the extractor is a token of
the lower-cased message passed through `capitalize` (so any internal capitals
of the original text are gone — "МакДональд" is stored as "Макдональд"),
while every `interest` value is a verbatim slice of the original message,
casing intact (an infix of it). -/
theorem extract_value_casing :
    (∀ (message : List Char) (pairs : List (String × List Char)),
      extract_facts_from_message message = Except.ok pairs →
      ∀ p ∈ pairs,
        ((p.1 = "name" ∨ p.1 = "city") →
          ∃ t, t <:+: pyLower message ∧ p.2 = pyCapitalize t)
        ∧ (p.1 = "interest" → p.2 <:+: message))
    ∧ extract_facts_from_message (cl "меня зовут МакДональд")
        = Except.ok [("name", cl "Макдональд")] := by
  constructor
  · intro message pairs hok p hp
    unfold extract_facts_from_message at hok
    cases hnf : nameFacts (pyLower message) with
    | error e =>
        simp only [hnf] at hok
        simp at hok
    | ok nf =>
        simp only [hnf] at hok
        injection hok with hpairs
        rw [← hpairs] at hp
        rcases List.mem_append.mp hp with hmem | hmem
        · rcases List.mem_append.mp hmem with hmn | hmc
          · obtain ⟨t, hti, hpe⟩ := nameFacts_mem hnf p hmn
            rw [hpe]
            refine ⟨fun _ => ⟨t, hti, rfl⟩, fun hkey => ?_⟩
            simp at hkey
          · have hmc' : p ∈ cityFacts (wsSplit (pyLower message)) := by
              by_cases hg : containsSub (cl "я из") (pyLower message)
                  ∨ containsSub (cl "живу в") (pyLower message)
              · rwa [if_pos hg] at hmc
              · rw [if_neg hg] at hmc
                simp at hmc
            obtain ⟨t, hti, hpe⟩ := cityFacts_mem hmc'
            rw [hpe]
            refine ⟨fun _ => ⟨t, hti, rfl⟩, fun hkey => ?_⟩
            simp at hkey
        · rcases List.mem_filterMap.mp hmem with ⟨w, hw, hif⟩
          obtain ⟨hk, hinf⟩ := interestFact_mem hif
          refine ⟨fun hkey => ?_, fun _ => hinf⟩
          rw [hk] at hkey
          rcases hkey with hkey | hkey
          · exact absurd hkey (by decide)
          · exact absurd hkey (by decide)
  · rfl

/-- Witness for C10 on a message whose extraction stores one city fact. -/
theorem extract_value_casing_w :
    extract_facts_from_message (cl "я из Москвы") = Except.ok [("city", cl "Москвы")]
    ∧ (("city", cl "Москвы") : String × List Char) ∈ [(("city", cl "Москвы") : String × List Char)]
    ∧ (((("city", cl "Москвы") : String × List Char).1 = "name"
          ∨ (("city", cl "Москвы") : String × List Char).1 = "city") →
        ∃ t, t <:+: pyLower (cl "я из Москвы")
          ∧ (("city", cl "Москвы") : String × List Char).2 = pyCapitalize t)
    ∧ ((("city", cl "Москвы") : String × List Char).1 = "interest" →
        (("city", cl "Москвы") : String × List Char).2 <:+: cl "я из Москвы") := by
  have happ := extract_value_casing.1 (cl "я из Москвы") [("city", cl "Москвы")] (by rfl)
      ("city", cl "Москвы") (by simp)
  exact ⟨by rfl, by simp, happ.1, happ.2⟩
